import Mathlib

/-!
Verification of the spectral decomposition and partitioning core of the
cellrank repository (`cellrank/tools/estimators/_decomposition.py` and
`cellrank/tools/estimators/_property.py`).

The numerical eigensolvers (`scipy.sparse.linalg.eigs`, `numpy.linalg.eig`)
and the vendored GPCCA Schur solver are treated as oracles: their outputs are
universally quantified inputs of the embedded post-processing code, which is
translated statement by statement from the source.  Machine floats are
modelled by rationals.
-/

/-- A complex number with rational components, standing in for numpy's
complex128 entries of the eigenvalue array `D` and the eigenvector
matrices `V_l`, `V_r`. -/
structure CC where
  re : ℚ
  im : ℚ
deriving DecidableEq, Repr

/-- The `which` parameter of `Eigen._compute` / `Schur._compute`:
`'LR'` (largest real part) or `'LM'` (largest magnitude). -/
inductive Which where
  | LR
  | LM
deriving DecidableEq, Repr

/-- `EPS = np.finfo(np.float64).eps` from `_decomposition.py` line 21. -/
def EPS : ℚ := 1 / 2 ^ 52

/-- `np.argsort(keys)`: indices that sort `keys` ascending.  numpy's default
quicksort leaves the order of equal keys unspecified; we model it by a
concrete comparison sort on the index list. -/
def argsortAsc (keys : List ℚ) : List Nat :=
  List.insertionSort (fun i j => keys.getD i 0 ≤ keys.getD j 0)
    (List.range keys.length)

/-- `np.flip` of a one-dimensional index array. -/
def npFlip (l : List Nat) : List Nat := l.reverse

/-- Fancy indexing `xs[p]` of numpy: pick out the entries of `xs` at the
positions listed in `p`.  For a column-indexed matrix (a list of columns)
this is exactly `M[:, p]`. -/
def applyPerm {α : Type} (p : List Nat) (xs : List α) : List α :=
  p.filterMap xs.get?

/-- The permutation `p = np.flip(np.argsort(D.real))` used by
`Eigen._compute` (line 120): positions of `D` in descending order of
real part. -/
def sortPermByReal (D : List CC) : List Nat :=
  npFlip (argsortAsc (D.map CC.re))

/-- `get_top_k_evals()` from `Eigen._compute` (line 84-85):
`D[np.flip(np.argsort(D.real))][:k]`. -/
def getTopKEvals (D : List CC) (k : Nat) : List CC :=
  (applyPerm (sortPermByReal D) D).take k

/-- First index attaining the maximum of a rational list (`np.argmax`);
`0` on the empty list. -/
def argmaxIdx : List ℚ → Nat
  | [] => 0
  | [_] => 0
  | x :: y :: rest =>
      let r := argmaxIdx (y :: rest)
      if x < (y :: rest).getD r 0 then r + 1 else 0

/-- Modelled from the spec: `cellrank.tools._utils._eigengap` is imported by
`_decomposition.py` (line 15) but its module is not under `src/`.  Per spec
§4.2: given the sequence `r_i` of real parts, form the gaps
`g_i = r_i - r_{i+1}`, weight them with the monotone index penalty
`score_i = g_i - alpha * i`, and return `argmax(score_i)` (first index
attaining the maximum). -/
def _eigengap (evals : List ℚ) (alpha : ℚ) : Nat :=
  argmaxIdx ((List.range (evals.length - 1)).map
    (fun i => (evals.getD i 0 - evals.getD (i + 1) 0) - alpha * (i : ℚ)))

/-- The mapping written by `Eigen._compute` / `Schur._compute` into
`self._eig` and `adata.uns`: keys `D`, optionally `stationary_dist`,
`V_l`, `V_r`, and `eigengap` plus the `params` sub-dictionary.
Eigenvector matrices are stored as lists of columns. -/
structure EigResult where
  D : List CC
  stationary_dist : Option (List ℚ) := none
  V_l : Option (List (List CC)) := none
  V_r : Option (List (List CC)) := none
  eigengap : Nat
  params_which : Which
  params_k : Nat
  params_alpha : ℚ
deriving DecidableEq, Repr

/-- The outputs of the four eigensolver calls that `Eigen._compute` can
make; each is an (eigenvalue array, eigenvector-column array) pair.
`sparseL` is `eigs(T.T, k, which, ncv)`, `sparseR` is
`eigs(T, k, which, ncv)`, `denseL` is `np.linalg.eig(T.T)` and `denseR`
is `np.linalg.eig(T)`. -/
structure EigSolver where
  sparseL : List CC × List (List CC)
  sparseR : List CC × List (List CC)
  denseL : List CC × List (List CC)
  denseR : List CC × List (List CC)

/-- The shared tail of `Eigen._compute` for `only_evals=False`
(lines 118-136): jointly permute `D`, `V_l`, `V_r` by
`np.flip(np.argsort(D.real))`, compute the eigengap from the sorted real
parts, and normalise `np.abs(V_l[:, 0].real)` into `stationary_dist`. -/
def eigFull (D : List CC) (V_l V_r : List (List CC)) (k : Nat)
    (which : Which) (alpha : ℚ) : EigResult :=
  let p := sortPermByReal D
  let D' := applyPerm p D
  let Vl' := applyPerm p V_l
  let Vr' := applyPerm p V_r
  let e_gap := _eigengap (D'.map CC.re) alpha
  let pi0 := (Vl'.headD []).map (fun c => |c.re|)
  let pi := pi0.map (fun x => x / pi0.sum)
  { D := D'
    stationary_dist := some pi
    V_l := some Vl'
    V_r := some Vr'
    eigengap := e_gap
    params_which := which
    params_k := k
    params_alpha := alpha }

/-- `Eigen._compute` (lines 48-136), with the eigensolver outputs passed
in as an oracle bundle.  Mirrors the four return paths of the source:
sparse/dense crossed with `only_evals` true/false. -/
def eigCompute (issparse : Bool) (sol : EigSolver) (k : Nat) (which : Which)
    (alpha : ℚ) (only_evals : Bool) : EigResult :=
  if issparse then
    let D := sol.sparseL.1
    let V_l := sol.sparseL.2
    if only_evals then
      { D := getTopKEvals D k
        eigengap := _eigengap ((getTopKEvals D k).map CC.re) alpha
        params_which := which
        params_k := k
        params_alpha := alpha }
    else
      eigFull D V_l sol.sparseR.2 k which alpha
  else
    let D := sol.denseL.1
    let V_l := sol.denseL.2
    if only_evals then
      { D := getTopKEvals D k
        eigengap := _eigengap (D.map CC.re) alpha
        params_which := which
        params_k := k
        params_alpha := alpha }
    else
      eigFull D V_l sol.denseR.2 k which alpha

/-- The GPCCA object stored as `self._gpcca` by `Schur._compute`.  The
vendored class `cellrank._vendor.msmtools.analysis.dense.gpcca.GPCCA` is
not under `src/`; per spec §4.3 it exposes the Schur vectors `X`, the
quasi-upper-triangular matrix `R`, and the `eigenvalues` of the retained
subspace, derived from the diagonal blocks of `R` (modelled by their real
parts, the sequence the eigengap is computed from). -/
structure GpccaState where
  X : List (List ℚ)
  R : List (List ℚ)
  eigenvalues : List ℚ
deriving DecidableEq, Repr

/-- The estimator state touched by `_write_eig_to_adata` and
`Schur._compute`: the `_eig` attribute, the shared `adata.uns` mapping,
the Schur vectors/matrix attributes and the `_gpcca` attribute.
`selfRepr` is `repr(self)` (`_property.py` lines 240-241), which appears
in the `adata.uns` key (see `eigKey`). -/
structure EstState where
  selfRepr : String := ""
  eig : Option EigResult := none
  uns : List (String × EigResult) := []
  schur_vectors : Option (List (List ℚ)) := none
  schur_matrix : Option (List (List ℚ)) := none
  gpcca : Option GpccaState := none
deriving DecidableEq, Repr

/-- Python dict assignment `d[k] = v`: overwrite in place when `k` is
present, else append (insertion order preserved). -/
def setKey (m : List (String × EigResult)) (k : String) (v : EigResult) :
    List (String × EigResult) :=
  if m.any (fun p => p.1 == k) then
    m.map (fun p => if p.1 == k then (k, v) else p)
  else
    m ++ [(k, v)]

/-- `str(self._direction)` as it appears inside the f-string of
`_write_eig_to_adata` (`_decomposition.py` line 37).  In this repository
`KernelHolder._direction` is a plain method with no `@property` decorator
(`_property.py` lines 214-215), so `self._direction` evaluates to the bound
method object and Python formats it as
`<bound method KernelHolder._direction of REPR>` where `REPR` is
`repr(self)`. -/
def methodStr (st : EstState) : String :=
  "<bound method KernelHolder._direction of " ++ st.selfRepr ++ ">"

/-- The `adata.uns` key `f"eig_{self._direction}"` written by
`_write_eig_to_adata` (`_decomposition.py` line 37). -/
def eigKey (st : EstState) : String :=
  "eig_" ++ methodStr st

/-- `EigWritable._write_eig_to_adata` (`_decomposition.py` lines 35-39):
store the mapping on the estimator and write it into the shared
`adata.uns` under `eigKey`. -/
def writeEigToAdata (st : EstState) (eig : EigResult) : EstState :=
  { st with eig := some eig, uns := setKey st.uns (eigKey st) eig }

/-- `Eigen._compute` including its final `_write_eig_to_adata` call; every
one of the four return paths of the source ends in exactly this write. -/
def eigComputeSt (issparse : Bool) (sol : EigSolver) (k : Nat) (which : Which)
    (alpha : ℚ) (only_evals : Bool) (st : EstState) : EstState :=
  writeEigToAdata st (eigCompute issparse sol k which alpha only_evals)

/-- Errors of `Schur._compute`: the `ValueError` raised for
`n_components < 2` (lines 384-387), and a `ValueError` propagating out of
the second `_do_schur_helper` call (not caught by the source). -/
inductive SchurErr where
  | contract
  | schurFail
deriving DecidableEq, Repr

/-- The `logg.warning` message of `Schur._compute` (lines 396-399). -/
def schurWarning (n_components : Nat) : String :=
  "Using `" ++ toString n_components ++
    "` components would split a block of complex conjugates. " ++
    "Increasing `n_components` to `" ++ toString (n_components + 1) ++ "`"

/-- `Schur._compute` (`_decomposition.py` lines 345-416), with the vendored
`GPCCA._do_schur_helper` passed in as an oracle.  Mirrors the source: the
`n_components < 2` guard, the `try`/`except ValueError` retry with
`n_components + 1` accompanied by a warning, the assignment of the Schur
vectors/matrix attributes, and the final `_write_eig_to_adata` call whose
mapping holds the GPCCA eigenvalues, their eigengap and
`k = len(eigenvalues)`.  The returned string list holds the warnings
emitted. -/
def schurCompute (doSchur : Nat → Except Unit GpccaState) (st : EstState)
    (n_components : Nat) (which : Which) (alpha : ℚ) :
    Except SchurErr (EstState × List String) :=
  if n_components < 2 then .error .contract
  else
    let attempt : Except Unit (GpccaState × List String) :=
      match doSchur n_components with
      | .ok g => .ok (g, [])
      | .error _ =>
          match doSchur (n_components + 1) with
          | .ok g => .ok (g, [schurWarning n_components])
          | .error e => .error e
    match attempt with
    | .error _ => .error .schurFail
    | .ok (g, warns) =>
        let st' := { st with gpcca := some g
                             schur_vectors := some g.X
                             schur_matrix := some g.R }
        let eig : EigResult :=
          { D := g.eigenvalues.map (fun r => ⟨r, 0⟩)
            eigengap := _eigengap g.eigenvalues alpha
            params_which := which
            params_k := g.eigenvalues.length
            params_alpha := alpha }
        .ok (writeEigToAdata st' eig, warns)

/-- Whether truncating the sorted spectrum after `m` eigenvalues falls
strictly inside one of the `blocks` (block sizes of the sorted spectrum:
`1` for a real eigenvalue, `2` for a complex-conjugate pair). -/
def splitsPair : List Nat → Nat → Bool
  | _, 0 => false
  | [], _ + 1 => false
  | b :: bs, m + 1 => if m + 1 < b then true else splitsPair bs (m + 1 - b)

/-- Modelled from the spec: `GPCCA._do_schur_helper` (vendored msmtools
code, not under `src/`).  Per spec §4.3 it computes a partial sorted real
Schur decomposition with `m` components, raising `ValueError` exactly when
the truncation at `m` would split a complex-conjugate eigenvalue pair of
the sorted spectrum (whose conjugate-block sizes are `blocks`).  `Xf`/`Rf`
give the Schur basis and quasi-triangular matrix for each component count
and `evs` is the sorted spectrum, of which the first `m` eigenvalues are
retained. -/
def doSchurModel (Xf Rf : Nat → List (List ℚ)) (evs : List ℚ)
    (blocks : List Nat) (m : Nat) : Except Unit GpccaState :=
  if splitsPair blocks m then .error ()
  else .ok { X := Xf m, R := Rf m, eigenvalues := evs.take m }

/-- `transition_matrix[i, j] > 0`: the edge relation of the directed graph
on states (spec §4.1). -/
def edgeB (T : List (List ℚ)) (i j : Nat) : Bool :=
  decide (0 < (T.getD i []).getD j 0)

/-- Reachability by a path of at most `fuel` edges. -/
def reachF (T : List (List ℚ)) : Nat → Nat → Nat → Bool
  | 0, i, j => i == j
  | fuel + 1, i, j =>
      i == j || (List.range T.length).any (fun m => edgeB T i m && reachF T fuel m j)

/-- `i` reaches `j` in the directed graph of `T` (paths up to length `N`
suffice). -/
def reachable (T : List (List ℚ)) (i j : Nat) : Bool :=
  reachF T T.length i j

/-- States `i` and `j` communicate: each reaches the other. -/
def communicates (T : List (List ℚ)) (i j : Nat) : Bool :=
  reachable T i j && reachable T j i

/-- The communication class of state `i`. -/
def classOf (T : List (List ℚ)) (i : Nat) : List Nat :=
  (List.range T.length).filter (fun j => communicates T i j)

/-- One representative (the smallest member) per communication class. -/
def classReps (T : List (List ℚ)) : List Nat :=
  (List.range T.length).filter
    (fun i => ((List.range i).filter (fun j => communicates T i j)).isEmpty)

/-- All communication classes of `T`. -/
def commClasses (T : List (List ℚ)) : List (List Nat) :=
  (classReps T).map (classOf T)

/-- A class is recurrent iff it has no outgoing edge to another class. -/
def isRecurrentClass (T : List (List ℚ)) (c : List Nat) : Bool :=
  c.all (fun i => (List.range T.length).all (fun j => !edgeB T i j || c.contains j))

/-- Modelled from the spec: `cellrank.tools._utils.partition` is imported
by `_property.py` (line 22) but its module is not under `src/`.  Per spec
§4.1: build the directed graph with an edge `i -> j` iff
`transition_matrix[i, j] > 0`, compute the strongly connected components,
and classify a component as recurrent iff it has no outgoing edge to
another component, as transient otherwise.  Returns
`(recurrent_classes, transient_classes)` with classes as lists of state
indices (the source further wraps them into pandas categoricals via
`_make_cat`, also not under `src/`). -/
def partition (T : List (List ℚ)) : List (List Nat) × List (List Nat) :=
  ((commClasses T).filter (isRecurrentClass T),
   (commClasses T).filter (fun c => !isRecurrentClass T c))

/-- The fields of `Partitioner` touched by `compute_partition`
(`_property.py` lines 617-622): all three start out as `None`. -/
structure PartitionState where
  is_irreducible : Option Bool := none
  rec_classes : Option (List (List Nat)) := none
  trans_classes : Option (List (List Nat)) := none
deriving DecidableEq, Repr

/-- `Partitioner.compute_partition` (`_property.py` lines 624-662):
compute the partition, set `_is_irreducible`, and populate
`_trans_classes` and `_rec_classes` only in the non-irreducible branch
(the irreducible branch merely logs a warning). -/
def computePartition (T : List (List ℚ)) (st : PartitionState) : PartitionState :=
  let pr := partition T
  let isIrr := pr.1.length == 1 && pr.2.length == 0
  if !isIrr then
    { st with is_irreducible := some isIrr
              trans_classes := some pr.2
              rec_classes := some pr.1 }
  else
    { st with is_irreducible := some isIrr }

/-- The eigensolver output used to refute claim C1: two real eigenvalues
`0.5` and `-0.9`; under `which = LM` the claim demands the magnitude order
`[-0.9, 0.5]`, but the code re-sorts by real part. -/
def solC1 : EigSolver :=
  { sparseL := ([], [])
    sparseR := ([], [])
    denseL := ([⟨1/2, 0⟩, ⟨-9/10, 0⟩], [[⟨1, 0⟩, ⟨0, 0⟩], [⟨0, 0⟩, ⟨1, 0⟩]])
    denseR := ([⟨1/2, 0⟩, ⟨-9/10, 0⟩], [[⟨1, 0⟩, ⟨0, 0⟩], [⟨0, 0⟩, ⟨1, 0⟩]]) }

/-- Dense eigensolver output with `N = 2` used for claim C2. -/
def solC2 : EigSolver :=
  { sparseL := ([], [])
    sparseR := ([], [])
    denseL := ([⟨1, 0⟩, ⟨1/2, 0⟩], [[⟨1, 0⟩, ⟨1, 0⟩], [⟨1, 0⟩, ⟨-1, 0⟩]])
    denseR := ([⟨1, 0⟩, ⟨1/2, 0⟩], [[⟨1, 0⟩, ⟨1, 0⟩], [⟨1, 0⟩, ⟨-1, 0⟩]]) }

/-- Dense eigensolver output used for claim C3: no eigenvalue is anywhere
near 1, yet the code still produces a stationary distribution. -/
def solC3 : EigSolver :=
  { sparseL := ([], [])
    sparseR := ([], [])
    denseL := ([⟨1/2, 0⟩, ⟨1/4, 0⟩], [[⟨1, 0⟩, ⟨2, 0⟩], [⟨3, 0⟩, ⟨1, 0⟩]])
    denseR := ([⟨1/2, 0⟩, ⟨1/4, 0⟩], [[⟨1, 0⟩, ⟨2, 0⟩], [⟨3, 0⟩, ⟨1, 0⟩]]) }

/-- Dense/sparse eigensolver output used for claim C5: the raw spectrum
`[0.1, 1, 0.9]` is unsorted, so the eigengap of the raw sequence differs
from the eigengap of the sorted top-`k` sequence. -/
def solC5 : EigSolver :=
  { sparseL := ([⟨1/10, 0⟩, ⟨1, 0⟩, ⟨9/10, 0⟩],
      [[⟨1, 0⟩, ⟨0, 0⟩, ⟨0, 0⟩], [⟨0, 0⟩, ⟨1, 0⟩, ⟨0, 0⟩], [⟨0, 0⟩, ⟨0, 0⟩, ⟨1, 0⟩]])
    sparseR := ([⟨1/10, 0⟩, ⟨1, 0⟩, ⟨9/10, 0⟩],
      [[⟨1, 0⟩, ⟨0, 0⟩, ⟨0, 0⟩], [⟨0, 0⟩, ⟨1, 0⟩, ⟨0, 0⟩], [⟨0, 0⟩, ⟨0, 0⟩, ⟨1, 0⟩]])
    denseL := ([⟨1/10, 0⟩, ⟨1, 0⟩, ⟨9/10, 0⟩],
      [[⟨1, 0⟩, ⟨0, 0⟩, ⟨0, 0⟩], [⟨0, 0⟩, ⟨1, 0⟩, ⟨0, 0⟩], [⟨0, 0⟩, ⟨0, 0⟩, ⟨1, 0⟩]])
    denseR := ([⟨1/10, 0⟩, ⟨1, 0⟩, ⟨9/10, 0⟩],
      [[⟨1, 0⟩, ⟨0, 0⟩, ⟨0, 0⟩], [⟨0, 0⟩, ⟨1, 0⟩, ⟨0, 0⟩], [⟨0, 0⟩, ⟨0, 0⟩, ⟨1, 0⟩]]) }

/-- The oracle Schur solver used for C6's witness. -/
def fC6 : Nat → Except Unit GpccaState := fun _ => .ok ⟨[], [], [1, mkRat 1 2]⟩

/-- The eigenvalue input used for C6's witness. -/
def DC6 : List CC := [⟨1, 0⟩, ⟨mkRat 1 2, 0⟩]

/-- The eigenvector-column input used for C6's witness. -/
def VC6 : List (List CC) := [[⟨1, 0⟩, ⟨1, 0⟩], [⟨1, 0⟩, ⟨-1, 0⟩]]

/-- The eigendecomposition mapping stored by `schurCompute fC6` for C6's
witness. -/
def eigC6 : EigResult :=
  { D := [⟨1, 0⟩, ⟨mkRat 1 2, 0⟩]
    eigengap := 0
    params_which := .LM
    params_k := 2
    params_alpha := 1 }

/-- The estimator state produced by `schurCompute fC6` for C6's witness. -/
def stOutC6 : EstState :=
  { selfRepr := ""
    eig := some eigC6
    uns := [("eig_<bound method KernelHolder._direction of >", eigC6)]
    schur_vectors := some []
    schur_matrix := some []
    gpcca := some ⟨[], [], [1, mkRat 1 2]⟩ }

/-- The eigensolver oracle used for claim C10. -/
def solC10 : EigSolver :=
  { sparseL := ([⟨1, 0⟩, ⟨mkRat 1 2, 0⟩], [[⟨1, 0⟩, ⟨1, 0⟩], [⟨1, 0⟩, ⟨-1, 0⟩]])
    sparseR := ([⟨1, 0⟩, ⟨mkRat 1 2, 0⟩], [[⟨1, 0⟩, ⟨1, 0⟩], [⟨1, 0⟩, ⟨-1, 0⟩]])
    denseL := ([⟨1, 0⟩, ⟨mkRat 1 2, 0⟩], [[⟨1, 0⟩, ⟨1, 0⟩], [⟨1, 0⟩, ⟨-1, 0⟩]])
    denseR := ([⟨1, 0⟩, ⟨mkRat 1 2, 0⟩], [[⟨1, 0⟩, ⟨1, 0⟩], [⟨1, 0⟩, ⟨-1, 0⟩]]) }

/-- A forward-direction estimator whose `repr(self)` is that of a GPCCA
estimator on two states, used for claim C10. -/
def stC10 : EstState :=
  { selfRepr := "GPCCA[n=2, kernel=<PrecomputedKernel>]" }

/-- The oracle Schur solver used for claim C10. -/
def fS10 : Nat → Except Unit GpccaState := fun _ => .ok ⟨[], [], [1, mkRat 1 2]⟩

theorem getD_map_re {D : List CC} {i : Nat} {c : CC} (h : D.get? i = some c) :
    (D.map CC.re).getD i 0 = c.re := by
  rw [List.getD_eq_get?, List.get?_map, h]
  rfl

theorem sortPermByReal_perm (D : List CC) :
    (sortPermByReal D).Perm (List.range D.length) := by
  unfold sortPermByReal npFlip argsortAsc
  refine (List.reverse_perm _).trans ((List.perm_insertionSort _ _).trans ?_)
  rw [List.length_map]

theorem sortPermByReal_sorted (D : List CC) :
    (sortPermByReal D).Pairwise
      (fun i j => (D.map CC.re).getD j 0 ≤ (D.map CC.re).getD i 0) := by
  unfold sortPermByReal npFlip
  rw [List.pairwise_reverse]
  haveI : IsTotal Nat (fun i j => (D.map CC.re).getD i 0 ≤ (D.map CC.re).getD j 0) :=
    ⟨fun _ _ => le_total _ _⟩
  haveI : IsTrans Nat (fun i j => (D.map CC.re).getD i 0 ≤ (D.map CC.re).getD j 0) :=
    ⟨fun _ _ _ h h' => le_trans h h'⟩
  exact List.sorted_insertionSort _ _

theorem applyPerm_sortPerm_pairwise (D : List CC) :
    (applyPerm (sortPermByReal D) D).Pairwise (fun a b => b.re ≤ a.re) := by
  refine List.Pairwise.filterMap D.get? ?_ (sortPermByReal_sorted D)
  intro i j hij b hb b' hb'
  rw [← getD_map_re hb, ← getD_map_re hb']
  exact hij

theorem applyPerm_length {α : Type} {p : List Nat} {xs : List α}
    (h : ∀ i ∈ p, i < xs.length) : (applyPerm p xs).length = p.length := by
  induction p with
  | nil => rfl
  | cons a p ih =>
    have ha : a < xs.length := h a (by simp)
    cases hx : xs.get? a with
    | none =>
        have := List.get?_eq_none.mp hx
        omega
    | some c =>
        simp only [applyPerm, List.filterMap_cons, hx]
        simp only [applyPerm] at ih
        rw [List.length_cons, ih (fun i hi => h i (by simp [hi]))]
        simp

theorem sortPermByReal_length (D : List CC) :
    (sortPermByReal D).length = D.length := by
  simpa using (sortPermByReal_perm D).length_eq

theorem mem_sortPermByReal_lt {D : List CC} {i : Nat} (h : i ∈ sortPermByReal D) :
    i < D.length := by
  have := (sortPermByReal_perm D).mem_iff.mp h
  simpa using this

theorem applyPerm_sortPerm_length (D : List CC) :
    (applyPerm (sortPermByReal D) D).length = D.length := by
  rw [applyPerm_length (fun i hi => mem_sortPermByReal_lt hi), sortPermByReal_length]

/-- Claim C1 (amended): for every transition matrix and both ordering
criteria `which ∈ {LR, LM}`, `eigendecompose` returns the eigenvalues and
the left/right eigenvectors jointly permuted by one permutation, sorted in
descending order of **real part** — regardless of `which` (the criterion
only selects which eigenpairs the sparse solver extracts; the re-sort at
`_decomposition.py` line 120 is always by real part). -/
theorem eigendecompose_sorted_by_real_part (D : List CC) (V_l V_r : List (List CC))
    (k : Nat) (which : Which) (alpha : ℚ) :
    ∃ p : List Nat, p.Perm (List.range D.length) ∧
      (eigFull D V_l V_r k which alpha).D = applyPerm p D ∧
      (eigFull D V_l V_r k which alpha).V_l = some (applyPerm p V_l) ∧
      (eigFull D V_l V_r k which alpha).V_r = some (applyPerm p V_r) ∧
      ((eigFull D V_l V_r k which alpha).D.map CC.re).Sorted (· ≥ ·) := by
  refine ⟨sortPermByReal D, sortPermByReal_perm D, rfl, rfl, rfl, ?_⟩
  show ((applyPerm (sortPermByReal D) D).map CC.re).Pairwise (· ≥ ·)
  rw [List.pairwise_map]
  exact applyPerm_sortPerm_pairwise D

/-- Claim C1 (counterexample): with `which = LM` the returned eigenvalues
`[0.5, -0.9]` are *not* in descending order of magnitude, refuting the
claim that the re-sort is by magnitude when `which = largest_magnitude`. -/
theorem eigendecompose_not_sorted_by_magnitude :
    (eigCompute false solC1 2 .LM 1 false).D = [⟨1/2, 0⟩, ⟨-9/10, 0⟩] ∧
    ¬ (((eigCompute false solC1 2 .LM 1 false).D.map
        (fun c => c.re * c.re + c.im * c.im)).Sorted (· ≥ ·)) :=
  of_decide_eq_true (by with_unfolding_all rfl)

theorem applyPerm_sortPerm_length_of {D : List CC} {α : Type} {xs : List α}
    (h : xs.length = D.length) :
    (applyPerm (sortPermByReal D) xs).length = D.length := by
  rw [applyPerm_length (fun i hi => h ▸ mem_sortPermByReal_lt hi), sortPermByReal_length]

/-- Claim C2 (amended): for every dense transition matrix, `eigendecompose`
computes the full eigendecomposition; with `only_evals = True` it returns
the top `k` eigenvalues (sorted by descending real part), but with
`only_evals = False` it returns **all** `N` eigenvalues and all `N` columns
of both eigenvector matrices, sorted but *not* truncated to `k`
(`_decomposition.py` lines 116-136 never apply `[:k]`). -/
theorem eigendecompose_dense_returns_full_spectrum (sol : EigSolver) (k : Nat)
    (which : Which) (alpha : ℚ)
    (hl : sol.denseL.2.length = sol.denseL.1.length)
    (hr : sol.denseR.2.length = sol.denseL.1.length) :
    (eigCompute false sol k which alpha true).D.length = min k sol.denseL.1.length ∧
    (eigCompute false sol k which alpha false).D.length = sol.denseL.1.length ∧
    (∃ vl, (eigCompute false sol k which alpha false).V_l = some vl ∧
      vl.length = sol.denseL.1.length) ∧
    (∃ vr, (eigCompute false sol k which alpha false).V_r = some vr ∧
      vr.length = sol.denseL.1.length) := by
  refine ⟨?_, ?_, ⟨_, rfl, ?_⟩, ⟨_, rfl, ?_⟩⟩
  · show ((applyPerm (sortPermByReal sol.denseL.1) sol.denseL.1).take k).length = _
    rw [List.length_take, applyPerm_sortPerm_length]
  · exact applyPerm_sortPerm_length sol.denseL.1
  · exact applyPerm_sortPerm_length_of hl
  · exact applyPerm_sortPerm_length_of hr

/-- Claim C2 (counterexample): with a dense `2 × 2` input and `k = 1 < N`,
the default (`only_evals = False`) path returns 2 eigenvalues, not the
claimed "exactly the top k". -/
theorem eigendecompose_dense_not_truncated :
    (eigCompute false solC2 1 .LR 1 false).D.length = 2 ∧
    ¬ ((eigCompute false solC2 1 .LR 1 false).D.length = 1) :=
  of_decide_eq_true (by with_unfolding_all rfl)

/-- Witness for C2's amended theorem at a concrete input. -/
theorem eigendecompose_dense_returns_full_spectrum_witness :
    (eigCompute false solC2 1 .LR 1 true).D.length = min 1 solC2.denseL.1.length ∧
    (eigCompute false solC2 1 .LR 1 false).D.length = solC2.denseL.1.length ∧
    (∃ vl, (eigCompute false solC2 1 .LR 1 false).V_l = some vl ∧
      vl.length = solC2.denseL.1.length) ∧
    (∃ vr, (eigCompute false solC2 1 .LR 1 false).V_r = some vr ∧
      vr.length = solC2.denseL.1.length) :=
  eigendecompose_dense_returns_full_spectrum solC2 1 .LR 1 rfl rfl

theorem sum_map_div (l : List ℚ) (s : ℚ) :
    (l.map (fun x => x / s)).sum = l.sum / s := by
  induction l with
  | nil => simp
  | cons a l ih => simp [ih, add_div]

/-- Claim C3 (amended): whenever `eigendecompose` runs with
`only_evals = False` it *always* stores a `stationary_dist` — the absolute
value of the real part of the left-eigenvector column associated with the
largest-real-part eigenvalue (column 0 after the re-sort), normalised by
its sum; when the normaliser is nonzero the result sums to 1 and is
non-negative.  No closeness-to-1 test is performed: the field is omitted
exactly when `only_evals = True`. -/
theorem stationary_dist_from_first_left_column
    (issparse : Bool) (sol : EigSolver) (D : List CC) (V_l V_r : List (List CC))
    (k k' : Nat) (which which' : Which) (alpha alpha' : ℚ)
    (h : (((applyPerm (sortPermByReal D) V_l).headD []).map (fun c => |c.re|)).sum ≠ 0) :
    (eigCompute issparse sol k' which' alpha' true).stationary_dist = none ∧
    (eigFull D V_l V_r k which alpha).stationary_dist =
      some ((((applyPerm (sortPermByReal D) V_l).headD []).map (fun c => |c.re|)).map
        (fun x => x / (((applyPerm (sortPermByReal D) V_l).headD []).map
          (fun c => |c.re|)).sum)) ∧
    ((((applyPerm (sortPermByReal D) V_l).headD []).map (fun c => |c.re|)).map
        (fun x => x / (((applyPerm (sortPermByReal D) V_l).headD []).map
          (fun c => |c.re|)).sum)).sum = 1 ∧
    ∀ x ∈ (((applyPerm (sortPermByReal D) V_l).headD []).map (fun c => |c.re|)).map
        (fun x => x / (((applyPerm (sortPermByReal D) V_l).headD []).map
          (fun c => |c.re|)).sum), 0 ≤ x := by
  refine ⟨?_, rfl, ?_, ?_⟩
  · cases issparse <;> rfl
  · rw [sum_map_div, div_self h]
  · intro x hx
    set pi0 := (((applyPerm (sortPermByReal D) V_l).headD []).map (fun c => |c.re|)) with hpi0
    obtain ⟨a, ha, rfl⟩ := List.mem_map.mp hx
    have ha0 : 0 ≤ a := by
      obtain ⟨c, _, rfl⟩ := List.mem_map.mp ha
      exact abs_nonneg _
    have hs0 : 0 ≤ pi0.sum := by
      refine List.sum_nonneg ?_
      intro y hy
      obtain ⟨c, _, rfl⟩ := List.mem_map.mp hy
      exact abs_nonneg _
    exact div_nonneg ha0 hs0

/-- Claim C3 (counterexample): every eigenvalue is at distance at least
`1/2` from 1 — vastly beyond any tolerance scaled to the floating-point
epsilon `EPS` — yet `stationary_dist` is *not* omitted. -/
theorem stationary_dist_not_omitted_far_from_one :
    (eigCompute false solC3 2 .LR 1 false).D = [⟨1/2, 0⟩, ⟨1/4, 0⟩] ∧
    (∀ c ∈ (eigCompute false solC3 2 .LR 1 false).D, c.im = 0 ∧ 1/2 ≤ 1 - c.re) ∧
    2 ^ 40 * EPS < 1/2 ∧
    (eigCompute false solC3 2 .LR 1 false).stationary_dist = some [1/3, 2/3] :=
  of_decide_eq_true (by with_unfolding_all rfl)

/-- Witness for C3's amended theorem at a concrete input. -/
theorem stationary_dist_from_first_left_column_witness :
    (eigCompute false solC3 2 .LR 1 true).stationary_dist = none ∧
    (eigFull solC3.denseL.1 solC3.denseL.2 solC3.denseR.2 2 .LR 1).stationary_dist =
      some ((((applyPerm (sortPermByReal solC3.denseL.1) solC3.denseL.2).headD []).map
          (fun c => |c.re|)).map
        (fun x => x / (((applyPerm (sortPermByReal solC3.denseL.1) solC3.denseL.2).headD
          []).map (fun c => |c.re|)).sum)) ∧
    ((((applyPerm (sortPermByReal solC3.denseL.1) solC3.denseL.2).headD []).map
          (fun c => |c.re|)).map
        (fun x => x / (((applyPerm (sortPermByReal solC3.denseL.1) solC3.denseL.2).headD
          []).map (fun c => |c.re|)).sum)).sum = 1 ∧
    ∀ x ∈ (((applyPerm (sortPermByReal solC3.denseL.1) solC3.denseL.2).headD []).map
          (fun c => |c.re|)).map
        (fun x => x / (((applyPerm (sortPermByReal solC3.denseL.1) solC3.denseL.2).headD
          []).map (fun c => |c.re|)).sum), 0 ≤ x :=
  stationary_dist_from_first_left_column false solC3 solC3.denseL.1 solC3.denseL.2
    solC3.denseR.2 2 2 .LR .LR 1 1 (of_decide_eq_true (by with_unfolding_all rfl))

/-- Claim C5 (code bug, `_decomposition.py` line 111): in the dense
`only_evals` path the stored `D` is the sorted top-`k` `[1, 0.9]`, but the
stored eigengap is computed from the *raw, unsorted, untruncated*
`D.real = [0.1, 1, 0.9]`, yielding index 1 instead of the index 0 obtained
from the returned sorted top-`k` sequence.  The sparse `only_evals` path
(line 96) is consistent on the same data, confirming line 111 as the
slip. -/
theorem eigengap_dense_only_evals_from_unsorted :
    (eigCompute false solC5 2 .LR 0 true).D = [⟨1, 0⟩, ⟨9/10, 0⟩] ∧
    (eigCompute false solC5 2 .LR 0 true).eigengap = 1 ∧
    _eigengap ((eigCompute false solC5 2 .LR 0 true).D.map CC.re) 0 = 0 ∧
    ¬ ((eigCompute false solC5 2 .LR 0 true).eigengap
        = _eigengap ((eigCompute false solC5 2 .LR 0 true).D.map CC.re) 0) ∧
    (eigCompute true solC5 2 .LR 0 true).eigengap
        = _eigengap ((eigCompute true solC5 2 .LR 0 true).D.map CC.re) 0 :=
  of_decide_eq_true (by with_unfolding_all rfl)

/-- Claim C7: `schur_decompose` returns the contract-violation error
precisely when `n_components < 2` — it is raised before any Schur
computation (the result does not depend on `doSchur`), and a call with
`n_components ≥ 2` is never rejected on this ground. -/
theorem schur_rejects_fewer_than_two_components
    (doSchur : Nat → Except Unit GpccaState) (st : EstState) (m : Nat)
    (which : Which) (alpha : ℚ) :
    schurCompute doSchur st m which alpha = .error .contract ↔ m < 2 := by
  unfold schurCompute
  by_cases h : m < 2
  · simp [h]
  · rw [if_neg h]
    simp only [h, iff_false]
    cases h1 : doSchur m with
    | ok g => simp
    | error e =>
        cases h2 : doSchur (m + 1) with
        | ok g => simp
        | error e' => simp

theorem splitsPair_succ_false {blocks : List Nat} (hb : ∀ s ∈ blocks, s ≤ 2)
    {m : Nat} (h : splitsPair blocks m = true) :
    splitsPair blocks (m + 1) = false := by
  induction blocks generalizing m with
  | nil => cases m <;> simp [splitsPair] at h
  | cons b bs ih =>
    cases m with
    | zero => simp [splitsPair] at h
    | succ n =>
      by_cases hc : n + 1 < b
      · have hb2 : b ≤ 2 := hb b (by simp)
        have hbv : b = 2 := by omega
        have hnv : n = 0 := by omega
        subst hbv hnv
        simp [splitsPair]
      · have h' : splitsPair bs (n + 1 - b) = true := by
          simpa [splitsPair, hc] using h
        have h2 := ih (fun s hs => hb s (by simp [hs])) h'
        have hble : b ≤ n + 1 := by omega
        have hc2 : ¬ (n + 1 + 1 < b) := by omega
        have harith : n + 1 + 1 - b = n + 1 - b + 1 := by omega
        simpa [splitsPair, hc2, harith] using h2

/-- Claim C4: for every spectrum whose conjugate-block structure has block
sizes 1 or 2, and every requested `n_components = m ≥ 2` (with at least
`m + 1` eigenvalues available), `schur_decompose` succeeds: if the cut at
`m` splits a conjugate pair it retries with `m + 1` — never fewer — and
reports the adjustment through a warning (not an error); the resulting
component count is `m` or `m + 1` and never cuts inside a conjugate
pair. -/
theorem schur_retries_with_one_more_component
    (Xf Rf : Nat → List (List ℚ)) (evs : List ℚ) (blocks : List Nat)
    (st : EstState) (m : Nat) (which : Which) (alpha : ℚ)
    (hb : ∀ s ∈ blocks, s = 1 ∨ s = 2) (hm : 2 ≤ m) (hev : m + 1 ≤ evs.length) :
    ∃ stOut warns g,
      schurCompute (doSchurModel Xf Rf evs blocks) st m which alpha = .ok (stOut, warns) ∧
      stOut.gpcca = some g ∧
      (g.eigenvalues.length = m ∨ g.eigenvalues.length = m + 1) ∧
      m ≤ g.eigenvalues.length ∧
      splitsPair blocks g.eigenvalues.length = false ∧
      (splitsPair blocks m = true → warns = [schurWarning m]) ∧
      (splitsPair blocks m = false → warns = []) := by
  have hm2 : ¬ (m < 2) := by omega
  by_cases hs : splitsPair blocks m = true
  · have hs1 : splitsPair blocks (m + 1) = false :=
      splitsPair_succ_false (fun s h => by rcases hb s h with h | h <;> omega) hs
    have hlen : (evs.take (m + 1)).length = m + 1 := by
      rw [List.length_take]
      omega
    refine ⟨writeEigToAdata
        { st with gpcca := some ⟨Xf (m + 1), Rf (m + 1), evs.take (m + 1)⟩
                  schur_vectors := some (Xf (m + 1))
                  schur_matrix := some (Rf (m + 1)) }
        { D := (evs.take (m + 1)).map (fun r => ⟨r, 0⟩)
          eigengap := _eigengap (evs.take (m + 1)) alpha
          params_which := which
          params_k := (evs.take (m + 1)).length
          params_alpha := alpha },
      [schurWarning m], ⟨Xf (m + 1), Rf (m + 1), evs.take (m + 1)⟩, ?_, rfl,
      ?_, ?_, ?_, fun _ => rfl, fun hf => absurd hs (by simp [hf])⟩
    · unfold schurCompute doSchurModel
      rw [if_neg hm2]
      simp [hs, hs1]
    · right
      exact hlen
    · rw [hlen]
      omega
    · rw [hlen]
      exact hs1
  · have hs0 : splitsPair blocks m = false := by
      cases hx : splitsPair blocks m with
      | false => rfl
      | true => exact absurd hx hs
    have hlen : (evs.take m).length = m := by
      rw [List.length_take]
      omega
    refine ⟨writeEigToAdata
        { st with gpcca := some ⟨Xf m, Rf m, evs.take m⟩
                  schur_vectors := some (Xf m)
                  schur_matrix := some (Rf m) }
        { D := (evs.take m).map (fun r => ⟨r, 0⟩)
          eigengap := _eigengap (evs.take m) alpha
          params_which := which
          params_k := (evs.take m).length
          params_alpha := alpha },
      [], ⟨Xf m, Rf m, evs.take m⟩, ?_, rfl,
      ?_, ?_, ?_, fun ht => absurd ht hs, fun _ => rfl⟩
    · unfold schurCompute doSchurModel
      rw [if_neg hm2]
      simp [hs0]
    · left
      exact hlen
    · rw [hlen]
    · rw [hlen]
      exact hs0

/-- Witness for C4's theorem at a concrete input: spectrum of block sizes
`[1, 2, 1]` and `m = 2`, which cuts inside the conjugate pair and is
bumped to 3 components with a warning. -/
theorem schur_retries_with_one_more_component_witness :
    ∃ stOut warns g,
      schurCompute (doSchurModel (fun _ => []) (fun _ => [])
          [1, mkRat 9 10, mkRat 9 10, mkRat 1 2] [1, 2, 1]) {} 2 .LM 1 = .ok (stOut, warns) ∧
      stOut.gpcca = some g ∧
      (g.eigenvalues.length = 2 ∨ g.eigenvalues.length = 2 + 1) ∧
      2 ≤ g.eigenvalues.length ∧
      splitsPair [1, 2, 1] g.eigenvalues.length = false ∧
      (splitsPair [1, 2, 1] 2 = true → warns = [schurWarning 2]) ∧
      (splitsPair [1, 2, 1] 2 = false → warns = []) :=
  schur_retries_with_one_more_component (fun _ => []) (fun _ => [])
    [1, mkRat 9 10, mkRat 9 10, mkRat 1 2] [1, 2, 1] {} 2 .LM 1
    (by decide) (by decide) (by decide)

/-- Claim C6: every successful `schur_decompose` stores as eigengap exactly
`_eigengap(eigenvalues, alpha)` applied to the eigenvalues of the retained
subspace, the same function `eigendecompose` applies to the sorted real
parts of its returned spectrum: whenever the two real-part sequences and
`alpha` coincide, the two stored eigengap indices are equal. -/
theorem schur_eigengap_matches_eigendecompose
    (doSchur : Nat → Except Unit GpccaState) (st stOut : EstState) (m : Nat)
    (warns : List String) (eS : EigResult) (which which' : Which) (alpha : ℚ)
    (D : List CC) (V_l V_r : List (List CC)) (k : Nat)
    (hrun : schurCompute doSchur st m which alpha = .ok (stOut, warns))
    (hS : stOut.eig = some eS)
    (hseq : eS.D.map CC.re = (eigFull D V_l V_r k which' alpha).D.map CC.re) :
    eS.eigengap = (eigFull D V_l V_r k which' alpha).eigengap := by
  have key : eS.eigengap = _eigengap (eS.D.map CC.re) alpha := by
    unfold schurCompute at hrun
    by_cases hm : m < 2
    · rw [if_pos hm] at hrun
      exact absurd hrun (by simp)
    · rw [if_neg hm] at hrun
      have main : ∀ (g : GpccaState),
          stOut = writeEigToAdata
            { st with gpcca := some g
                      schur_vectors := some g.X
                      schur_matrix := some g.R }
            { D := g.eigenvalues.map (fun r => ⟨r, 0⟩)
              eigengap := _eigengap g.eigenvalues alpha
              params_which := which
              params_k := g.eigenvalues.length
              params_alpha := alpha } →
          eS.eigengap = _eigengap (eS.D.map CC.re) alpha := by
        intro g hg
        have heig : stOut.eig = some
            { D := g.eigenvalues.map (fun r => ⟨r, 0⟩)
              eigengap := _eigengap g.eigenvalues alpha
              params_which := which
              params_k := g.eigenvalues.length
              params_alpha := alpha } := by
          rw [hg]
          rfl
        rw [hS] at heig
        have heS := Option.some.inj heig
        rw [heS]
        show _eigengap g.eigenvalues alpha =
          _eigengap ((g.eigenvalues.map (fun r => (⟨r, 0⟩ : CC))).map CC.re) alpha
        rw [List.map_map]
        have hid : (g.eigenvalues.map (CC.re ∘ fun r => (⟨r, 0⟩ : CC))) = g.eigenvalues :=
          List.map_id g.eigenvalues
        rw [hid]
      cases h1 : doSchur m with
      | ok g =>
          rw [h1] at hrun
          simp only [Except.ok.injEq, Prod.mk.injEq] at hrun
          exact main g hrun.1.symm
      | error e =>
          rw [h1] at hrun
          cases h2 : doSchur (m + 1) with
          | ok g =>
              rw [h2] at hrun
              simp only [Except.ok.injEq, Prod.mk.injEq] at hrun
              exact main g hrun.1.symm
          | error e' =>
              rw [h2] at hrun
              exact absurd hrun (by simp)
  rw [key, hseq]
  rfl

/-- Witness for C6's theorem at a concrete input. -/
theorem schur_eigengap_matches_eigendecompose_witness :
    eigC6.eigengap = (eigFull DC6 VC6 VC6 2 .LR 1).eigengap :=
  schur_eigengap_matches_eigendecompose fC6 {} stOutC6 2 [] eigC6 .LM .LR 1 DC6 VC6 VC6 2
    (by with_unfolding_all rfl) (by with_unfolding_all rfl) (by with_unfolding_all rfl)

/-- Claim C8: after `compute_partition`, `is_irreducible` is `True` exactly
when the computed partition has exactly one recurrent class and no
transient classes (`_property.py` line 643). -/
theorem is_irreducible_iff_single_recurrent_class (T : List (List ℚ)) (st : PartitionState) :
    (computePartition T st).is_irreducible = some true ↔
      ((partition T).1.length = 1 ∧ (partition T).2.length = 0) := by
  have hval : (computePartition T st).is_irreducible =
      some ((partition T).1.length == 1 && (partition T).2.length == 0) := by
    unfold computePartition
    by_cases h : ((partition T).1.length == 1 && (partition T).2.length == 0) = true
    · simp [h]
    · simp [h]
  rw [hval]
  constructor
  · intro h
    have h2 := Option.some.inj h
    simp only [Bool.and_eq_true, beq_iff_eq] at h2
    exact h2
  · intro h
    simp [h.1, h.2]

/-- Claim C9 (amended): `compute_partition` always succeeds and always sets
`is_irreducible`; it populates `rec_classes` and `trans_classes` exactly
when the chain is *not* irreducible, and leaves them at their previous
value (`None` on a fresh estimator) in the irreducible case
(`_property.py` lines 645-662: the classes are only assigned inside the
`if not self._is_irreducible` branch). -/
theorem compute_partition_populates_iff_reducible (T : List (List ℚ)) (st : PartitionState) :
    (computePartition T st).is_irreducible =
      some ((partition T).1.length == 1 && (partition T).2.length == 0) ∧
    ((computePartition T st).rec_classes =
      if ((partition T).1.length == 1 && (partition T).2.length == 0) then st.rec_classes
      else some (partition T).1) ∧
    ((computePartition T st).trans_classes =
      if ((partition T).1.length == 1 && (partition T).2.length == 0) then st.trans_classes
      else some (partition T).2) := by
  unfold computePartition
  by_cases h : ((partition T).1.length == 1 && (partition T).2.length == 0) = true
  · simp [h]
  · simp [h]

/-- Claim C9 (counterexample): for the 1-state chain `[[1]]` the partition
is a single recurrent class with no transients, `is_irreducible` is set to
`True`, and `recurrent_classes` / `transient_classes` remain `None` — they
are *not* populated, refuting "populated for every input, including the
irreducible case". -/
theorem compute_partition_irreducible_leaves_classes_unset :
    partition [[(1 : ℚ)]] = ([[0]], []) ∧
    (computePartition [[(1 : ℚ)]] {}).is_irreducible = some true ∧
    (computePartition [[(1 : ℚ)]] {}).rec_classes = none ∧
    (computePartition [[(1 : ℚ)]] {}).trans_classes = none :=
  of_decide_eq_true (by with_unfolding_all rfl)

/-- Claim C10 (code bug): every `_compute` path — Eigen only-eigenvalues,
Eigen full, and Schur — does write the eigendecomposition mapping into the
shared `adata.uns`, but never under `'eig_forward'` or `'eig_backward'`:
because `KernelHolder._direction` is a plain method with no `@property`
decorator, the f-string `f"eig_{self._direction}"` formats the bound
method object, producing the key
`eig_<bound method KernelHolder._direction of GPCCA[n=2, ...]>`. -/
theorem write_eig_to_adata_key_is_bound_method :
    (eigComputeSt false solC10 2 .LR 1 true stC10).uns.lookup "eig_forward" = none ∧
    (eigComputeSt false solC10 2 .LR 1 true stC10).uns.lookup "eig_backward" = none ∧
    (eigComputeSt false solC10 2 .LR 1 true stC10).uns.lookup
        "eig_<bound method KernelHolder._direction of GPCCA[n=2, kernel=<PrecomputedKernel>]>"
      = some (eigCompute false solC10 2 .LR 1 true) ∧
    (eigComputeSt true solC10 2 .LR 1 false stC10).uns.lookup "eig_forward" = none ∧
    (eigComputeSt true solC10 2 .LR 1 false stC10).uns.lookup
        "eig_<bound method KernelHolder._direction of GPCCA[n=2, kernel=<PrecomputedKernel>]>"
      = some (eigCompute true solC10 2 .LR 1 false) ∧
    (schurCompute fS10 stC10 2 .LM 1).map
        (fun p => (p.1.uns.lookup "eig_forward", p.1.uns.lookup "eig_backward"))
      = .ok (none, none) ∧
    (schurCompute fS10 stC10 2 .LM 1).map
        (fun p => (p.1.uns.lookup
          "eig_<bound method KernelHolder._direction of GPCCA[n=2, kernel=<PrecomputedKernel>]>").isSome)
      = .ok true :=
  ⟨by with_unfolding_all rfl, by with_unfolding_all rfl, by with_unfolding_all rfl,
   by with_unfolding_all rfl, by with_unfolding_all rfl, by with_unfolding_all rfl,
   by with_unfolding_all rfl⟩
